import Mathlib

/-!
Verification of the circuit-graph core of the PyQt logic-gate simulator.

The definitions below are a shallow embedding of
`Node-Editor/complete_logic_gate_simulator.py` (the main program) and, where a
claim cites them, of the two variant files under
`Node-Editor/Small Implement files with errors/`.  Qt/rendering code is not
modelled; the embedding covers the circuit graph (nodes, sockets, wires), the
per-gate `updateLogic` evaluation, wire connection (`Socket.mouseReleaseEvent`),
node deletion (`NodeEditorView.delete_selected_items`), the JSON codec
(`serialize_scene` / `deserialize_scene` / `NodeEditorTab.load_from_file`),
copy/paste (`copy_selected_nodes` / `paste_nodes`), the delete-undo command
(`DeleteItemsCommand`), and the recursive value propagation
(`Socket.updateValue` / the gates' `updateLogic`).

Modelling conventions:
* Python object identity (`id(obj)`) is modelled by an explicit `nid`/`wid`
  natural-number field.
* Scene coordinates (Python floats that round-trip exactly through the JSON
  writer) are modelled as integers.
* A socket's `wires` list is kept in sync with the scene by `Wire.__init__`
  and `Wire.remove`, so the scene model stores the wire list once, at scene
  level; the dedicated `EditorState` model used for the delete/undo command
  additionally tracks socket registration separately from scene membership,
  because `DeleteItemsCommand.undo` breaks that synchronisation.
-/

namespace LogicSim

/-! ### Gate evaluation (`updateLogic` of each gate class)

An input pin of a gate is read as in the source: `input_value = False`, then
overwritten with `wires[0].source_socket.value` when the input socket has at
least one incoming wire.  `none` models an unconnected pin, `some v` a pin
whose single incoming wire carries `v`. -/

def inputValue : Option Bool → Bool
  | none => false
  | some v => v

/-- `AndGateNode.updateLogic`: output is `input1_value and input2_value`. -/
def andGateLogic (in1 in2 : Option Bool) : Bool :=
  inputValue in1 && inputValue in2

/-- `OrGateNode.updateLogic`: output is `input1_value or input2_value`. -/
def orGateLogic (in1 in2 : Option Bool) : Bool :=
  inputValue in1 || inputValue in2

/-- `NotGateNode.updateLogic`: output is `not input_value`. -/
def notGateLogic (in1 : Option Bool) : Bool :=
  !(inputValue in1)

/-- `NandGateNode.updateLogic`: output is `not (input1_value and input2_value)`. -/
def nandGateLogic (in1 in2 : Option Bool) : Bool :=
  !(inputValue in1 && inputValue in2)

/-- `NorGateNode.updateLogic`: output is `not (input1_value or input2_value)`. -/
def norGateLogic (in1 in2 : Option Bool) : Bool :=
  !(inputValue in1 || inputValue in2)

/-- `XorGateNode.updateLogic`: output is `input1_value != input2_value`. -/
def xorGateLogic (in1 in2 : Option Bool) : Bool :=
  inputValue in1 != inputValue in2

/-- `XnorGateNode.updateLogic`: output is `input1_value == input2_value`. -/
def xnorGateLogic (in1 in2 : Option Bool) : Bool :=
  inputValue in1 == inputValue in2

/-! ### The scene graph model -/

/-- The node classes of the main program (`create_node` / `deserialize_scene`
dispatch over exactly these). -/
inductive NodeType
  | input
  | output
  | andGate
  | orGate
  | notGate
  | nandGate
  | norGate
  | xorGate
  | xnorGate
deriving DecidableEq, Repr

/-- Number of input sockets each node class creates in its `__init__`. -/
def numInputs : NodeType → Nat
  | .input => 0
  | .output => 1
  | .notGate => 1
  | _ => 2

/-- Number of output sockets each node class creates in its `__init__`. -/
def numOutputs : NodeType → Nat
  | .output => 0
  | _ => 1

/-- `item.__class__.__name__`, as used by `serialize_scene` and
`copy_selected_nodes`. -/
def className : NodeType → String
  | .input => "InputNode"
  | .output => "OutputNode"
  | .andGate => "AndGateNode"
  | .orGate => "OrGateNode"
  | .notGate => "NotGateNode"
  | .nandGate => "NandGateNode"
  | .norGate => "NorGateNode"
  | .xorGate => "XorGateNode"
  | .xnorGate => "XnorGateNode"

/-- The dispatch chain of `deserialize_scene` (shared by `paste_nodes`):
maps a stored class-name string back to the class, `none` for unknown types
(the record is skipped). -/
def parseClassName (t : String) : Option NodeType :=
  if t = "InputNode" then some .input
  else if t = "OutputNode" then some .output
  else if t = "AndGateNode" then some .andGate
  else if t = "OrGateNode" then some .orGate
  else if t = "NotGateNode" then some .notGate
  else if t = "NandGateNode" then some .nandGate
  else if t = "NorGateNode" then some .norGate
  else if t = "XorGateNode" then some .xorGate
  else if t = "XnorGateNode" then some .xnorGate
  else none

/-- A node in the scene: identity, class, position, and per-class extra state
(`InputNode.value`; `OutputNode.write_to_file`). -/
structure LNode where
  nid : Nat
  ty : NodeType
  x : Int
  y : Int
  value : Bool
  writeToFile : Bool
deriving DecidableEq, Repr

/-- A wire: source output socket `(srcNode, srcSock)` to target input socket
`(tgtNode, tgtSock)`, sockets named by their index in the owning node's
`output_sockets` / `input_sockets` list. -/
structure LWire where
  srcNode : Nat
  srcSock : Nat
  tgtNode : Nat
  tgtSock : Nat
deriving DecidableEq, Repr

/-- The editor scene: the nodes and wires currently in it. -/
structure Scene where
  nodes : List LNode
  wires : List LWire
deriving DecidableEq, Repr

/-- Well-formedness of a scene as maintained by the UI: distinct node
identities, every wire joins existing sockets within socket-count bounds, and
the per-class extra state is defaulted on classes that do not carry it. -/
def WF (s : Scene) : Prop :=
  (s.nodes.map (·.nid)).Nodup ∧
  (∀ w ∈ s.wires, ∃ n ∈ s.nodes, n.nid = w.srcNode ∧ w.srcSock < numOutputs n.ty) ∧
  (∀ w ∈ s.wires, ∃ n ∈ s.nodes, n.nid = w.tgtNode ∧ w.tgtSock < numInputs n.ty) ∧
  (∀ n ∈ s.nodes, n.ty ≠ NodeType.input → n.value = false) ∧
  (∀ n ∈ s.nodes, n.ty ≠ NodeType.output → n.writeToFile = false)

instance : DecidablePred WF := fun s => by
  unfold WF; infer_instance

/-! ### Connecting wires

`Socket.mouseReleaseEvent` of the main program: once a matching
(output, input) socket pair is found, a connection between two sockets of the
same node is skipped; otherwise every existing wire on the target input socket
is removed (`wire.remove()`) and the new wire is created and added. -/

def connectComplete (s : Scene) (srcN srcS tgtN tgtS : Nat) : Scene :=
  if srcN = tgtN then s
  else
    { s with
      wires :=
        s.wires.filter (fun w => !(w.tgtNode == tgtN && w.tgtSock == tgtS)) ++
          [{ srcNode := srcN, srcSock := srcS, tgtNode := tgtN, tgtSock := tgtS }] }

/-- `Socket.mouseReleaseEvent` of the small-variant
`logic_gate_simulator.py`: the connection is created only when the two sockets
belong to different nodes and the target input socket has no existing
connection; otherwise nothing happens. -/
def connectSmall (s : Scene) (srcN srcS tgtN tgtS : Nat) : Scene :=
  if srcN ≠ tgtN ∧
      (s.wires.filter (fun w => w.tgtNode == tgtN && w.tgtSock == tgtS)) = [] then
    { s with
      wires :=
        s.wires ++ [{ srcNode := srcN, srcSock := srcS, tgtNode := tgtN, tgtSock := tgtS }] }
  else s

/-! ### Deleting a node

`delete_selected_items` with a single node selected: every wire registered at
any of the node's sockets is removed via `wire.remove()`, then the node itself
is removed from the scene. -/

def touchesNode (nid : Nat) (w : LWire) : Bool :=
  w.srcNode == nid || w.tgtNode == nid

def deleteNode (s : Scene) (nid : Nat) : Scene :=
  { nodes := s.nodes.filter (fun n => !(n.nid == nid)),
    wires := s.wires.filter (fun w => !touchesNode nid w) }

/-! ### The persistence codec -/

/-- One entry of the serialized `nodes` list: `id`, `type`
(`__class__.__name__`), position, and `value` (present only for `InputNode`). -/
structure NodeRec where
  rid : Nat
  rtype : String
  x : Int
  y : Int
  value : Option Bool
deriving DecidableEq, Repr

/-- One entry of the serialized `connections` list. -/
structure ConnRec where
  startNode : Nat
  startSocket : Nat
  endNode : Nat
  endSocket : Nat
deriving DecidableEq, Repr

/-- The serialized document: the two top-level lists. -/
structure Document where
  nodes : List NodeRec
  connections : List ConnRec
deriving DecidableEq, Repr

/-- The node record `serialize_scene` emits for one node. -/
def nodeToRec (n : LNode) : NodeRec :=
  { rid := n.nid, rtype := className n.ty, x := n.x, y := n.y,
    value := if n.ty = NodeType.input then some n.value else none }

/-- The connection record `serialize_scene` emits for one wire (socket indices
are recovered with `list.index`, which in this model is the stored index). -/
def wireToConn (w : LWire) : ConnRec :=
  { startNode := w.srcNode, startSocket := w.srcSock,
    endNode := w.tgtNode, endSocket := w.tgtSock }

/-- The connection-collection loop of `serialize_scene`: under each node, one
record per wire leaving one of its output sockets. -/
def serializeConnsAux (ws : List LWire) : List LNode → List ConnRec
  | [] => []
  | n :: ns =>
    (ws.filter (fun w => w.srcNode == n.nid)).map wireToConn ++ serializeConnsAux ws ns

/-- `NodeEditorView.serialize_scene`: one record per node in scene order, and,
grouped under each node, one record per wire leaving one of its output
sockets. -/
def serialize_scene (s : Scene) : Document :=
  { nodes := s.nodes.map nodeToRec,
    connections := serializeConnsAux s.wires s.nodes }

/-- The wires of `ws` grouped by source node along `ns` (the wire objects the
serializer walks, before turning them into records). -/
def groupedOver (ws : List LWire) : List LNode → List LWire
  | [] => []
  | n :: ns => ws.filter (fun w => w.srcNode == n.nid) ++ groupedOver ws ns

/-- The Python statement `nodes[node_data.id] = node`: a later record with the
same document id overwrites an earlier one, so a binding is added only when the
id is not already bound by a later record (the recursion below processes the
tail, i.e. the later records, first). -/
def bindOld (m : List (Nat × LNode)) (k : Nat) (n : LNode) : List (Nat × LNode) :=
  match m.lookup k with
  | some _ => m
  | none => (k, n) :: m

/-- The node `deserialize_scene` constructs from one record: the class default
state, with `value` restored for `InputNode` when the record carries it.  The
fresh Python object identity is modelled by the running index `k`. -/
def mkNodeFromRec (k : Nat) (ty : NodeType) (r : NodeRec) : LNode :=
  { nid := k, ty := ty, x := r.x, y := r.y,
    value := if ty = NodeType.input then r.value.getD false else false,
    writeToFile := false }

/-- The node-creation loop of `deserialize_scene`: records with unknown type
strings are skipped, the rest create nodes in document order and populate the
id dictionary. -/
def buildNodes : List NodeRec → Nat → List LNode × List (Nat × LNode)
  | [], _ => ([], [])
  | r :: rs, k =>
    match parseClassName r.rtype with
    | none => buildNodes rs k
    | some ty =>
      let node := mkNodeFromRec k ty r
      let p := buildNodes rs (k + 1)
      (node :: p.1, bindOld p.2 r.rid node)

/-- The connection-creation loop shared by `deserialize_scene` and
`paste_nodes`: both endpoint ids must be in the dictionary and both socket
indices must be in range for the reconstructed node's socket count; offending
records are skipped.  There is no same-node check. -/
def buildWires (m : List (Nat × LNode)) : List ConnRec → List LWire
  | [] => []
  | c :: cs =>
    match m.lookup c.startNode, m.lookup c.endNode with
    | some sn, some en =>
      if c.startSocket < numOutputs sn.ty ∧ c.endSocket < numInputs en.ty then
        { srcNode := sn.nid, srcSock := c.startSocket,
          tgtNode := en.nid, tgtSock := c.endSocket } :: buildWires m cs
      else buildWires m cs
    | _, _ => buildWires m cs

/-- `NodeEditorView.deserialize_scene`: clears the scene, rebuilds the nodes,
then the connections.  The result replaces the previous scene wholesale. -/
def deserialize_scene (doc : Document) : Scene :=
  let p := buildNodes doc.nodes 0
  { nodes := p.1, wires := buildWires p.2 doc.connections }

/-! ### Loading from file

`NodeEditorTab.load_from_file`: `json.load` may fail (modelled by the outer
`Option` being `none`), in which case nothing has happened yet.  When it
succeeds, the scene is cleared and `deserialize_scene` runs; a missing (or
ill-typed) top-level `nodes` entry raises after the clear, a missing
`connections` entry raises after the nodes were rebuilt.  The exception is
caught and `False` returned, with the scene left in whatever state the failure
point produced. -/

structure RawData where
  nodes : Option (List NodeRec)
  connections : Option (List ConnRec)
deriving DecidableEq, Repr

def load_from_file (parsed : Option RawData) (s : Scene) : Bool × Scene :=
  match parsed with
  | none => (false, s)
  | some d =>
    match d.nodes with
    | none => (false, { nodes := [], wires := [] })
    | some nrecs =>
      let p := buildNodes nrecs 0
      match d.connections with
      | none => (false, { nodes := p.1, wires := [] })
      | some crecs => (true, { nodes := p.1, wires := buildWires p.2 crecs })

/-! ### Copy and paste -/

/-- The clipboard entry `copy_selected_nodes` stores per node: class name,
position, and the original node identity (for connection remapping). -/
structure CopiedNode where
  ctype : String
  x : Int
  y : Int
  origId : Nat
deriving DecidableEq, Repr

/-- The clipboard: `self.copied_nodes` and `self.copied_connections` (the
latter reusing the connection-record shape, endpoint ids being original node
identities). -/
structure CopyBuffer where
  nodes : List CopiedNode
  conns : List ConnRec
deriving DecidableEq, Repr

/-- The selected nodes, in scene order. -/
def selectedNodesOf (s : Scene) (sel : List Nat) : List LNode :=
  s.nodes.filter (fun n => sel.contains n.nid)

/-- The clipboard entry `copy_selected_nodes` builds for one node. -/
def nodeToClip (n : LNode) : CopiedNode :=
  { ctype := className n.ty, x := n.x, y := n.y, origId := n.nid }

/-- The wire-gathering loop of `copy_selected_nodes`: for each selected node,
the wires at its output sockets followed by the wires at its input sockets
(so a wire internal to the selection appears twice). -/
def gatherWireObjs (ws : List LWire) : List LNode → List LWire
  | [] => []
  | n :: ns =>
    ws.filter (fun w => w.srcNode == n.nid) ++
      ws.filter (fun w => w.tgtNode == n.nid) ++ gatherWireObjs ws ns

/-- The connection-collection loop of `copy_selected_nodes`: walk the gathered
wire list, keep those whose two endpoint nodes are both selected, and skip a
record that is already in the list (`if connection_data not in
self.copied_connections`). -/
def gatherConns (selIds : List Nat) : List LWire → List ConnRec → List ConnRec
  | [], acc => acc
  | w :: ws, acc =>
    if selIds.contains w.srcNode && selIds.contains w.tgtNode then
      let cd := wireToConn w
      if acc.contains cd then gatherConns selIds ws acc
      else gatherConns selIds ws (acc ++ [cd])
    else gatherConns selIds ws acc

/-- `NodeEditorView.copy_selected_nodes`: records the selected nodes, then
gathers candidate wires from the output sockets and the input sockets of every
selected node (so internal wires are encountered twice) and filters them down
to deduplicated internal connection records. -/
def copy_selected_nodes (s : Scene) (sel : List Nat) : CopyBuffer :=
  let selNodes := selectedNodesOf s sel
  let selIds := selNodes.map (·.nid)
  let allWires := gatherWireObjs s.wires selNodes
  { nodes := selNodes.map nodeToClip,
    conns := gatherConns selIds allWires [] }

/-- A Python id of a fresh object: any value distinct from every live node id.
Modelled as one past the maximum id in the scene. -/
def freshBase (s : Scene) : Nat :=
  (s.nodes.map (·.nid)).foldr max 0 + 1

/-- The node-creation loop of `paste_nodes`: same class dispatch as
`deserialize_scene`, position shifted by the copy offset, class-default extra
state (the stored `InputNode` value is not copied), and the original-id →
new-node dictionary. -/
def buildPasted (off : Int) : List CopiedNode → Nat → List LNode × List (Nat × LNode)
  | [], _ => ([], [])
  | c :: cs, k =>
    match parseClassName c.ctype with
    | none => buildPasted off cs k
    | some ty =>
      let node : LNode :=
        { nid := k, ty := ty, x := c.x + off, y := c.y + off,
          value := false, writeToFile := false }
      let p := buildPasted off cs (k + 1)
      (node :: p.1, bindOld p.2 c.origId node)

/-- `NodeEditorView.paste_nodes`: creates one node per clipboard entry, then
recreates the recorded connections through the id dictionary with the same
bounds checks as the codec; returns the updated scene and the new node ids. -/
def paste_nodes (s : Scene) (buf : CopyBuffer) (off : Int) : Scene × List Nat :=
  let p := buildPasted off buf.nodes (freshBase s)
  let newWires := buildWires p.2 buf.conns
  ({ nodes := s.nodes ++ p.1, wires := s.wires ++ newWires }, p.1.map (·.nid))

/-! ### Scene isomorphism (the spec's round-trip notion)

The spec's round-trip law compares two graphs by the multiset of node
`(type, position, extra state)` triples — extra state including the stored
boolean of `InputNode` and the write-to-file flavor of `OutputNode` — and by
the set of connections matched by endpoint node and pin index under the id
remapping.  `deserialize_scene` rebuilds nodes in document order, so the id
remapping is the positional one: a node id is replaced by the node's position
in its scene's node list. -/

/-- Position (and node) of the first node with the given id. -/
def findPos : List LNode → Nat → Option (Nat × LNode)
  | [], _ => none
  | n :: ns, i =>
    if n.nid = i then some (0, n)
    else (findPos ns i).map (fun q => (q.1 + 1, q.2))

/-- Position of a node id in a scene's node list (0 when absent). -/
def posIndex (s : Scene) (i : Nat) : Nat :=
  ((findPos s.nodes i).map (·.1)).getD 0

/-- The `(type, position, extra state)` triple of a node, extra state being the
stored boolean and the write-to-file flavor. -/
def nodeKey (n : LNode) : NodeType × Int × Int × Bool × Bool :=
  (n.ty, n.x, n.y, n.value, n.writeToFile)

/-- A wire with its endpoint node ids replaced by node-list positions. -/
def normWire (s : Scene) (w : LWire) : Nat × Nat × Nat × Nat :=
  (posIndex s w.srcNode, w.srcSock, posIndex s w.tgtNode, w.tgtSock)

/-- Graph isomorphism in the sense of the round-trip claim: identical multiset
of node `(type, position, extra)` triples, and identical multiset of
connections matched by endpoint node position and pin index. -/
def sceneIso (a b : Scene) : Prop :=
  (↑(a.nodes.map nodeKey) : Multiset (NodeType × Int × Int × Bool × Bool)) =
    ↑(b.nodes.map nodeKey) ∧
  (↑(a.wires.map (normWire a)) : Multiset (Nat × Nat × Nat × Nat)) =
    ↑(b.wires.map (normWire b))

instance (a b : Scene) : Decidable (sceneIso a b) := by
  unfold sceneIso; infer_instance

/-- A scene with the write-to-file flavor of every node reset to the class
default (what the codec actually preserves). -/
def resetFlavor (s : Scene) : Scene :=
  { nodes := s.nodes.map (fun n => { n with writeToFile := false }), wires := s.wires }

/-- The node `deserialize_scene` reconstructs from the serialization of `n`
when the fresh object identity is `k`. -/
def rename (k : Nat) (n : LNode) : LNode :=
  { nid := k, ty := n.ty, x := n.x, y := n.y,
    value := if n.ty = NodeType.input then n.value else false,
    writeToFile := false }

/-- `rename` applied along a list with consecutive fresh identities. -/
def renameFrom (k : Nat) : List LNode → List LNode
  | [] => []
  | n :: ns => rename k n :: renameFrom (k + 1) ns

/-- The node `paste_nodes` reconstructs from the clipboard entry of `n` when
the fresh object identity is `k` and the paste offset is `off`. -/
def pasteRename (off : Int) (k : Nat) (n : LNode) : LNode :=
  { nid := k, ty := n.ty, x := n.x + off, y := n.y + off,
    value := false, writeToFile := false }

/-- `pasteRename` applied along a list with consecutive fresh identities. -/
def pasteRenameFrom (off : Int) (k : Nat) : List LNode → List LNode
  | [] => []
  | n :: ns => pasteRename off k n :: pasteRenameFrom off (k + 1) ns

/-- The wire `paste_nodes` creates from an internal connection record, given
the base fresh identity and the selected-node list: each endpoint id becomes
the id of the pasted copy of that node. -/
def connRemap (base : Nat) (selNodes : List LNode) (c : ConnRec) : LWire :=
  { srcNode := base + ((findPos selNodes c.startNode).map (·.1)).getD 0,
    srcSock := c.startSocket,
    tgtNode := base + ((findPos selNodes c.endNode).map (·.1)).getD 0,
    tgtSock := c.endSocket }

/-! ### The delete/undo command (`DeleteItemsCommand`)

Deleting a node removes it and its incident wires from the scene and, through
`Wire.remove`, removes every such wire from both endpoint sockets' `wires`
lists.  `DeleteItemsCommand.undo` re-adds the node and the stored wires to the
scene with `scene.addItem` only — nothing re-appends the wires to the socket
lists.  Scene membership and socket registration therefore need separate
tracking here. -/

/-- A wire object (identity plus endpoint sockets); the object outlives scene
removal because the undo command keeps a reference. -/
structure WireObj where
  wid : Nat
  srcNode : Nat
  srcSock : Nat
  tgtNode : Nat
  tgtSock : Nat
deriving DecidableEq, Repr

/-- Editor state for the delete/undo story: which node and wire objects are in
the scene, and which wire ids are registered in their endpoint sockets' `wires`
lists (`Wire.__init__` registers at both sockets, `Wire.remove` removes from
both, so registration is one flag per wire). -/
structure EditorState where
  sceneNodes : List Nat
  sceneWires : List WireObj
  registered : List Nat
  allWires : List WireObj
deriving DecidableEq, Repr

/-- Delete a selected node then undo, following the source: the command stores
the wires currently registered at the node's sockets; deletion calls
`wire.remove()` on each (dropping scene membership and socket registration)
and removes the node; `undo` re-adds the node and the stored wires to the
scene, leaving socket registration untouched. -/
def deleteThenUndo (st : EditorState) (nid : Nat) : EditorState :=
  let stored := st.allWires.filter
    (fun w => st.registered.contains w.wid && (w.srcNode == nid || w.tgtNode == nid))
  let storedIds := stored.map (·.wid)
  let afterDelete : EditorState :=
    { sceneNodes := st.sceneNodes.filter (fun i => !(i == nid)),
      sceneWires := st.sceneWires.filter (fun w => !storedIds.contains w.wid),
      registered := st.registered.filter (fun i => !storedIds.contains i),
      allWires := st.allWires }
  { afterDelete with
      sceneNodes := afterDelete.sceneNodes ++ [nid],
      sceneWires := afterDelete.sceneWires ++ stored }

/-! ### Recursive value propagation (`Socket.updateValue` / `updateLogic`)

Gate nodes have one output socket; `Socket.updateValue` writes a new value
only when it differs from the stored one (change gating) and then calls
`updateLogic` on the parent node of every wire leaving the socket.  Each gate's
`updateLogic` reads its input sockets' effective values from the current state
and calls `updateValue` on its output socket.  `OutputNode.updateLogic` only
repaints.  There is no visit cap, so the recursion is modelled with explicit
fuel: a run that returns `none` for every fuel amount is an infinite
recursion in the source. -/

/-- A node of the propagation model: class plus the stored toggle value of an
`InputNode`. -/
structure PropNode where
  ty : NodeType
  stored : Bool
deriving DecidableEq, Repr

/-- A wire of the propagation model: from node `srcNode`'s single output socket
into input socket `tgtSock` of node `tgtNode` (nodes named by list index). -/
structure PropWire where
  srcNode : Nat
  tgtNode : Nat
  tgtSock : Nat
deriving DecidableEq, Repr

structure Circuit where
  nodes : List PropNode
  wires : List PropWire
deriving DecidableEq, Repr

/-- The effective value of input socket `k` of node `i`: `False` when no wire
ends there, otherwise the source socket's current value of the first such
wire. -/
def inputSockValue (C : Circuit) (st : List Bool) (i k : Nat) : Bool :=
  match C.wires.filter (fun w => w.tgtNode == i && w.tgtSock == k) with
  | [] => false
  | w :: _ => st.getD w.srcNode false

/-- The `output_value` each class's `updateLogic` computes from the current
socket values. -/
def evalNode (C : Circuit) (st : List Bool) (i : Nat) : Bool :=
  match (C.nodes.getD i { ty := NodeType.output, stored := false }).ty with
  | .input => (C.nodes.getD i { ty := NodeType.output, stored := false }).stored
  | .output => false
  | .andGate => inputSockValue C st i 0 && inputSockValue C st i 1
  | .orGate => inputSockValue C st i 0 || inputSockValue C st i 1
  | .notGate => !(inputSockValue C st i 0)
  | .nandGate => !(inputSockValue C st i 0 && inputSockValue C st i 1)
  | .norGate => !(inputSockValue C st i 0 || inputSockValue C st i 1)
  | .xorGate => inputSockValue C st i 0 != inputSockValue C st i 1
  | .xnorGate => inputSockValue C st i 0 == inputSockValue C st i 1

/-- The parent nodes of the wires leaving node `i`'s output socket, in wire
order. -/
def targetsOf (C : Circuit) (i : Nat) : List Nat :=
  (C.wires.filter (fun w => w.srcNode == i)).map (·.tgtNode)

/-- The three call shapes of the propagation recursion: `updateLogic` on a
node, `updateValue` on a node's output socket, and the propagation loop over
downstream target nodes. -/
inductive PropCall
  | upd (i : Nat)
  | val (i : Nat) (out : Bool)
  | fan (ts : List Nat)
deriving DecidableEq, Repr

/-- Fuelled interpreter of the mutual recursion between `updateLogic` and
`Socket.updateValue`.  Every call consumes one unit of fuel; `none` means the
fuel ran out, so `(∀ n, runProp C n c st = none)` states that the source
recursion never returns. -/
def runProp (C : Circuit) : Nat → PropCall → List Bool → Option (List Bool)
  | 0, _, _ => none
  | fuel + 1, .upd i, st =>
    if (C.nodes.getD i { ty := NodeType.output, stored := false }).ty = NodeType.output then
      some st
    else runProp C fuel (.val i (evalNode C st i)) st
  | fuel + 1, .val i out, st =>
    if st.getD i false == out then some st
    else runProp C fuel (.fan (targetsOf C i)) (st.set i out)
  | _ + 1, .fan [], st => some st
  | fuel + 1, .fan (j :: ts), st =>
    match runProp C fuel (.upd j) st with
    | none => none
    | some st2 => runProp C fuel (.fan ts) st2

/-! ### Concrete instances used by counterexamples, failing inputs and
witnesses -/

/-- The spec's feedback loop: node 0 an `InputNode` (just toggled to `False`),
node 1 an `OrGateNode`, node 2 a `NotGateNode`; the input feeds the Or's first
input, the Or feeds the Not, and the Not feeds back into the Or's second
input. -/
def cycCircuit : Circuit :=
  { nodes :=
      [{ ty := NodeType.input, stored := false },
       { ty := NodeType.orGate, stored := false },
       { ty := NodeType.notGate, stored := false }],
    wires :=
      [{ srcNode := 0, tgtNode := 1, tgtSock := 0 },
       { srcNode := 2, tgtNode := 1, tgtSock := 1 },
       { srcNode := 1, tgtNode := 2, tgtSock := 0 }] }

/-- Socket values after the input had been toggled to `True` and the circuit
settled: input socket `True`, Or output `True`, Not output `False`. -/
def cycStart : List Bool := [true, true, false]

/-- State after the toggle wrote `False` to the input's output socket. -/
def cycSt1 : List Bool := [false, true, false]

def cycSt2 : List Bool := [false, false, false]

def cycSt3 : List Bool := [false, false, true]

def cycSt4 : List Bool := [false, true, true]

/-- A scene with a write-to-file `OutputNode` (`Write Output`), for the
round-trip flavor counterexample. -/
def flavorScene : Scene :=
  { nodes := [{ nid := 0, ty := NodeType.output, x := 0, y := 0,
                value := false, writeToFile := true }],
    wires := [] }

/-- A scene with two `InputNode`s and an `OutputNode`, input 0 wired into the
output's single input socket. -/
def occupiedScene : Scene :=
  { nodes :=
      [{ nid := 0, ty := NodeType.input, x := 0, y := 0, value := false, writeToFile := false },
       { nid := 1, ty := NodeType.output, x := 10, y := 0, value := false, writeToFile := false },
       { nid := 2, ty := NodeType.input, x := 0, y := 10, value := false, writeToFile := false }],
    wires := [{ srcNode := 0, srcSock := 0, tgtNode := 1, tgtSock := 0 }] }

/-- A document whose single connection record joins the output socket of a
`NotGateNode` to that same node's own input socket; both indices pass the
bounds checks of `deserialize_scene`. -/
def selfLoopDoc : Document :=
  { nodes := [{ rid := 7, rtype := "NotGateNode", x := 0, y := 0, value := none }],
    connections := [{ startNode := 7, startSocket := 0, endNode := 7, endSocket := 0 }] }

/-- A parseable but structurally malformed document: no top-level `nodes`
list. -/
def malformedRaw : RawData :=
  { nodes := none, connections := none }

/-- Editor state for the delete/undo story: nodes 0 and 1 in the scene, one
wire (id 10) from node 0's output socket into node 1's input socket, in the
scene and registered at both sockets. -/
def undoWire : WireObj :=
  { wid := 10, srcNode := 0, srcSock := 0, tgtNode := 1, tgtSock := 0 }

def undoStart : EditorState :=
  { sceneNodes := [0, 1],
    sceneWires := [undoWire],
    registered := [10],
    allWires := [undoWire] }

/-- A small well-formed scene used by witnesses: input 0 wired to output 1. -/
def pairScene : Scene :=
  { nodes :=
      [{ nid := 0, ty := NodeType.input, x := 1, y := 2, value := true, writeToFile := false },
       { nid := 1, ty := NodeType.output, x := 3, y := 4, value := false, writeToFile := false }],
    wires := [{ srcNode := 0, srcSock := 0, tgtNode := 1, tgtSock := 0 }] }

/-- A scene of two connected gates plus an externally wired third node:
And 0 feeds Not 1 (internal), and Not 1 also feeds Output 2 (external). -/
def gatePairScene : Scene :=
  { nodes :=
      [{ nid := 0, ty := NodeType.andGate, x := 0, y := 0, value := false, writeToFile := false },
       { nid := 1, ty := NodeType.notGate, x := 20, y := 0, value := false, writeToFile := false },
       { nid := 2, ty := NodeType.output, x := 40, y := 0, value := false, writeToFile := false }],
    wires :=
      [{ srcNode := 0, srcSock := 0, tgtNode := 1, tgtSock := 0 },
       { srcNode := 1, srcSock := 0, tgtNode := 2, tgtSock := 0 }] }

/-! ## Theorems -/

/-- Serialization and both deserializers agree on class names: parsing the
emitted class name recovers the class. -/
theorem parseClassName_className (t : NodeType) : parseClassName (className t) = some t := by
  cases t <;> rfl

/-- C1: for every gate node type and every combination of boolean values on
its input pins (a pin with no incoming connection reading as false), the
recomputed output equals the spec truth table: And a∧b, Or a∨b, Not ¬a,
Nand ¬(a∧b), Nor ¬(a∨b), Xor a≠b, Xnor a=b. -/
theorem gate_truth_tables :
    ∀ a b : Option Bool,
      andGateLogic a b = (a.getD false && b.getD false) ∧
      orGateLogic a b = (a.getD false || b.getD false) ∧
      notGateLogic a = !(a.getD false) ∧
      nandGateLogic a b = !(a.getD false && b.getD false) ∧
      norGateLogic a b = !(a.getD false || b.getD false) ∧
      xorGateLogic a b = decide (¬(a.getD false = b.getD false)) ∧
      xnorGateLogic a b = decide (a.getD false = b.getD false) := by
  decide

/-- C2 counterexample: in the main program, completing a connection onto an
already-occupied sink pin does not reject: the prior wire is removed from the
scene and the new wire is installed. -/
theorem connect_occupied_replaces_cex :
    ({ srcNode := 0, srcSock := 0, tgtNode := 1, tgtSock := 0 } : LWire) ∈ occupiedScene.wires ∧
    (connectComplete occupiedScene 2 0 1 0).wires ≠ occupiedScene.wires ∧
    ({ srcNode := 0, srcSock := 0, tgtNode := 1, tgtSock := 0 } : LWire) ∉
      (connectComplete occupiedScene 2 0 1 0).wires ∧
    ({ srcNode := 2, srcSock := 0, tgtNode := 1, tgtSock := 0 } : LWire) ∈
      (connectComplete occupiedScene 2 0 1 0).wires := by
  decide

/-- C2 amended: connecting a source socket to an occupied sink pin of a
different node silently replaces in the main program — afterwards the scene
holds exactly the wires not ending at that sink plus the new wire — while the
small-variant simulator rejects the attempt and leaves the scene unchanged. -/
theorem connect_occupied_amended (s : Scene) (a b c d : Nat) (w0 : LWire)
    (hne : a ≠ c) (h0 : w0 ∈ s.wires) (htgt : w0.tgtNode = c) (hsock : w0.tgtSock = d) :
    (∀ w : LWire, w ∈ (connectComplete s a b c d).wires ↔
      ((w ∈ s.wires ∧ (w.tgtNode ≠ c ∨ w.tgtSock ≠ d)) ∨
        w = { srcNode := a, srcSock := b, tgtNode := c, tgtSock := d })) ∧
    connectSmall s a b c d = s := by
  constructor
  · intro w
    simp only [connectComplete, if_neg hne, List.mem_append, List.mem_filter,
      List.mem_singleton, Bool.not_eq_true', Bool.and_eq_false_iff, beq_eq_false_iff_ne]
  · have hmem : w0 ∈ s.wires.filter (fun w => w.tgtNode == c && w.tgtSock == d) :=
      List.mem_filter.mpr ⟨h0, by simp [htgt, hsock]⟩
    have hflt : ¬(a ≠ c ∧ s.wires.filter (fun w => w.tgtNode == c && w.tgtSock == d) = []) :=
      fun hcond => List.ne_nil_of_mem hmem hcond.2
    unfold connectSmall
    rw [if_neg hflt]

/-- C2 amended, witness at the concrete occupied scene. -/
theorem connect_occupied_amended_witness :
    (({ srcNode := 0, srcSock := 0, tgtNode := 1, tgtSock := 0 } : LWire) ∉
      (connectComplete occupiedScene 2 0 1 0).wires) ∧
    connectSmall occupiedScene 2 0 1 0 = occupiedScene := by
  have h := connect_occupied_amended occupiedScene 2 0 1 0
    { srcNode := 0, srcSock := 0, tgtNode := 1, tgtSock := 0 }
    (by decide) (by decide) (by decide) (by decide)
  refine ⟨fun hmem => ?_, h.2⟩
  rcases (h.1 _).mp hmem with ⟨_, hno⟩ | heq
  · rcases hno with hno | hno <;> exact hno (by decide)
  · exact absurd heq (by decide)

/-- Every configuration of the feedback-loop recursion that the cycle revisits
runs out of fuel at every fuel amount: the chain Or → Not → Or alternates the
Or output between the two boolean values forever. -/
theorem cyc_all_none (n : Nat) :
    runProp cycCircuit n (.upd 1) cycSt1 = none ∧
    runProp cycCircuit n (.val 1 false) cycSt1 = none ∧
    runProp cycCircuit n (.fan [2]) cycSt2 = none ∧
    runProp cycCircuit n (.upd 2) cycSt2 = none ∧
    runProp cycCircuit n (.val 2 true) cycSt2 = none ∧
    runProp cycCircuit n (.fan [1]) cycSt3 = none ∧
    runProp cycCircuit n (.upd 1) cycSt3 = none ∧
    runProp cycCircuit n (.val 1 true) cycSt3 = none ∧
    runProp cycCircuit n (.fan [2]) cycSt4 = none ∧
    runProp cycCircuit n (.upd 2) cycSt4 = none ∧
    runProp cycCircuit n (.val 2 false) cycSt4 = none ∧
    runProp cycCircuit n (.fan [1]) cycSt1 = none := by
  induction n with
  | zero => exact ⟨rfl, rfl, rfl, rfl, rfl, rfl, rfl, rfl, rfl, rfl, rfl, rfl⟩
  | succ k ih =>
    obtain ⟨h1, h2, h3, h4, h5, h6, h7, h8, h9, h10, h11, h12⟩ := ih
    refine ⟨h2, h3, ?_, h5, h6, ?_, h8, h9, ?_, h11, h12, ?_⟩
    · show (match runProp cycCircuit k (.upd 2) cycSt2 with
        | none => none
        | some st2 => runProp cycCircuit k (.fan []) st2) = none
      rw [h4]
    · show (match runProp cycCircuit k (.upd 1) cycSt3 with
        | none => none
        | some st2 => runProp cycCircuit k (.fan []) st2) = none
      rw [h7]
    · show (match runProp cycCircuit k (.upd 2) cycSt4 with
        | none => none
        | some st2 => runProp cycCircuit k (.fan []) st2) = none
      rw [h10]
    · show (match runProp cycCircuit k (.upd 1) cycSt1 with
        | none => none
        | some st2 => runProp cycCircuit k (.fan []) st2) = none
      rw [h1]

/-- C4: the recursive propagation has no visit cap.  On the spec's own
feedback loop (Or output through a Not back into the Or), toggling the input
node to False triggers a recursion that exhausts every fuel amount — the
source recursion never returns (it aborts with a RecursionError), instead of
terminating within a bounded single pass. -/
theorem feedback_loop_diverges (n : Nat) :
    runProp cycCircuit n (.val 0 false) cycStart = none := by
  cases n with
  | zero => rfl
  | succ m =>
    cases m with
    | zero => rfl
    | succ k =>
      show (match runProp cycCircuit k (.upd 1) cycSt1 with
        | none => none
        | some st2 => runProp cycCircuit k (.fan []) st2) = none
      rw [(cyc_all_none k).1]

/-- C5: deleting a wired node and undoing the deletion restores the node and
the wire to the scene, but the wire is never re-registered in its endpoint
sockets' wire lists, so the logical connectivity read by updateLogic and
get_value is not restored: before deletion wire 10 is registered, after
delete-plus-undo it is in the scene yet registered nowhere. -/
theorem undo_restore_bug :
    (10 ∈ undoStart.registered) ∧
    (undoWire ∈ undoStart.sceneWires) ∧
    (deleteThenUndo undoStart 1).sceneNodes = [0, 1] ∧
    (undoWire ∈ (deleteThenUndo undoStart 1).sceneWires) ∧
    (10 ∉ (deleteThenUndo undoStart 1).registered) := by
  decide

/-- C6 counterexample: a document that parses as JSON but lacks the top-level
nodes list makes the load fail only after the scene has been cleared: the
pre-load graph (one wired Input/Output pair) is destroyed, not preserved. -/
theorem load_malformed_mutates_cex :
    (load_from_file (some malformedRaw) pairScene).1 = false ∧
    (load_from_file (some malformedRaw) pairScene).2 ≠ pairScene ∧
    (load_from_file (some malformedRaw) pairScene).2.nodes = [] := by
  decide

/-- C6 amended: a document that fails JSON parsing leaves the current graph
untouched, but a parseable document with no well-typed top-level nodes list
fails only after clearing the scene, leaving an empty graph. -/
theorem load_parse_failure_amended :
    (∀ s : Scene, load_from_file none s = (false, s)) ∧
    (∀ (s : Scene) (d : RawData), d.nodes = none →
      load_from_file (some d) s = (false, { nodes := [], wires := [] })) := by
  constructor
  · intro s
    rfl
  · intro s d h
    obtain ⟨dn, dc⟩ := d
    dsimp only at h
    subst h
    rfl

/-- C6 amended, witness at the concrete pair scene. -/
theorem load_parse_failure_amended_witness :
    load_from_file none pairScene = (false, pairScene) ∧
    load_from_file (some malformedRaw) pairScene = (false, { nodes := [], wires := [] }) :=
  ⟨load_parse_failure_amended.1 pairScene,
    load_parse_failure_amended.2 pairScene malformedRaw rfl⟩

/-- C8: deleting a node removes exactly the connections touching its sockets
and the node itself: the wire count drops by the number of incident wires, a
wire survives iff it was present and not incident, and a node survives iff it
was present and is not the deleted one. -/
theorem delete_node_frame (s : Scene) (nid : Nat) :
    ((deleteNode s nid).wires.length + s.wires.countP (touchesNode nid) = s.wires.length) ∧
    (∀ w : LWire, w ∈ (deleteNode s nid).wires ↔ (w ∈ s.wires ∧ touchesNode nid w = false)) ∧
    (∀ n : LNode, n ∈ (deleteNode s nid).nodes ↔ (n ∈ s.nodes ∧ n.nid ≠ nid)) := by
  refine ⟨?_, ?_, ?_⟩
  · have h := (List.filter_append_perm (touchesNode nid) s.wires).length_eq
    rw [List.length_append] at h
    simp only [deleteNode, List.countP_eq_length_filter]
    omega
  · intro w
    simp only [deleteNode, List.mem_filter, Bool.not_eq_true']
  · intro n
    simp only [deleteNode, List.mem_filter, Bool.not_eq_true', beq_eq_false_iff_ne, ne_eq]

/-- C8, witness at the concrete pair scene. -/
theorem delete_node_frame_witness :
    (deleteNode pairScene 1).wires.length + pairScene.wires.countP (touchesNode 1) =
      pairScene.wires.length :=
  (delete_node_frame pairScene 1).1

/-- C9 counterexample: deserializing a document whose connection record names
the same node at both ends creates a node-level self-loop — the bounds checks
pass and there is no same-node check in the deserializer. -/
theorem deserialize_self_loop_cex :
    (deserialize_scene selfLoopDoc).wires =
      [{ srcNode := 0, srcSock := 0, tgtNode := 0, tgtSock := 0 }] ∧
    ∃ w ∈ (deserialize_scene selfLoopDoc).wires, w.srcNode = w.tgtNode := by
  decide

/-- C9 amended: the interactive connect intent never creates a node-level
self-loop (the same-node check skips it), so it preserves the no-self-loop
invariant; deserialize/load does not enforce the invariant. -/
theorem connect_no_self_loop_amended (s : Scene) (a b c d : Nat)
    (h : ∀ w ∈ s.wires, w.srcNode ≠ w.tgtNode) :
    ∀ w ∈ (connectComplete s a b c d).wires, w.srcNode ≠ w.tgtNode := by
  intro w hw
  unfold connectComplete at hw
  by_cases hac : a = c
  · rw [if_pos hac] at hw
    exact h w hw
  · rw [if_neg hac] at hw
    rcases List.mem_append.mp hw with hin | hnew
    · exact h w (List.mem_filter.mp hin).1
    · rw [List.mem_singleton] at hnew
      subst hnew
      exact hac

/-- C9 amended, witness: the wire present after a concrete connect intent is
not a self-loop. -/
theorem connect_no_self_loop_amended_witness :
    ({ srcNode := 0, srcSock := 0, tgtNode := 1, tgtSock := 0 } : LWire).srcNode ≠
      ({ srcNode := 0, srcSock := 0, tgtNode := 1, tgtSock := 0 } : LWire).tgtNode :=
  connect_no_self_loop_amended pairScene 0 0 1 0 (by decide) _ (by decide)

/-- Membership in the gathered wire candidates: a wire is encountered iff it
is in the scene and touches some selected node. -/
theorem gatherWireObjs_mem (ws : List LWire) (ns : List LNode) (w : LWire) :
    w ∈ gatherWireObjs ws ns ↔
      w ∈ ws ∧ ∃ n ∈ ns, w.srcNode = n.nid ∨ w.tgtNode = n.nid := by
  induction ns with
  | nil => simp [gatherWireObjs]
  | cons n ns ih =>
    simp only [gatherWireObjs, List.mem_append, List.mem_filter, beq_iff_eq, ih,
      List.mem_cons]
    constructor
    · rintro ((⟨hw, hs⟩ | ⟨hw, ht⟩) | ⟨hw, n2, hn2, hor⟩)
      · exact ⟨hw, n, Or.inl rfl, Or.inl hs⟩
      · exact ⟨hw, n, Or.inl rfl, Or.inr ht⟩
      · exact ⟨hw, n2, Or.inr hn2, hor⟩
    · rintro ⟨hw, n2, hn2 | hn2, hor⟩
      · subst hn2
        rcases hor with hs | ht
        · exact Or.inl (Or.inl ⟨hw, hs⟩)
        · exact Or.inl (Or.inr ⟨hw, ht⟩)
      · exact Or.inr ⟨hw, n2, hn2, hor⟩

/-- The one-step unfolding of the collection loop. -/
theorem gatherConns_cons (ids : List Nat) (w : LWire) (ws : List LWire)
    (acc : List ConnRec) :
    gatherConns ids (w :: ws) acc =
      if ids.contains w.srcNode && ids.contains w.tgtNode then
        if acc.contains (wireToConn w) then gatherConns ids ws acc
        else gatherConns ids ws (acc ++ [wireToConn w])
      else gatherConns ids ws acc :=
  rfl

/-- Membership in the deduplicated internal-connection list built by the
collection loop. -/
theorem gatherConns_mem (ids : List Nat) (ws : List LWire) :
    ∀ (acc : List ConnRec) (c : ConnRec),
      c ∈ gatherConns ids ws acc ↔
        c ∈ acc ∨ ∃ w ∈ ws, wireToConn w = c ∧ w.srcNode ∈ ids ∧ w.tgtNode ∈ ids := by
  induction ws with
  | nil =>
    intro acc c
    simp [gatherConns]
  | cons w ws ih =>
    intro acc c
    rw [gatherConns_cons]
    by_cases h1 : (ids.contains w.srcNode && ids.contains w.tgtNode) = true
    · have hsel : w.srcNode ∈ ids ∧ w.tgtNode ∈ ids := by
        have h1b := h1
        simp only [List.contains, Bool.and_eq_true, List.elem_eq_mem,
          decide_eq_true_eq] at h1b
        exact h1b
      rw [if_pos h1]
      by_cases h2 : (acc.contains (wireToConn w)) = true
      · have hacc : wireToConn w ∈ acc := by
          simpa only [List.contains, List.elem_eq_mem, decide_eq_true_eq] using h2
        rw [if_pos h2, ih]
        constructor
        · rintro (hc | ⟨w2, hw2, he, hi⟩)
          · exact Or.inl hc
          · exact Or.inr ⟨w2, List.mem_cons_of_mem _ hw2, he, hi⟩
        · rintro (hc | ⟨w2, hw2, he, hi⟩)
          · exact Or.inl hc
          · rcases List.mem_cons.mp hw2 with rfl | hw2
            · exact Or.inl (he ▸ hacc)
            · exact Or.inr ⟨w2, hw2, he, hi⟩
      · rw [if_neg h2, ih]
        constructor
        · rintro (hc | ⟨w2, hw2, he, hi⟩)
          · rcases List.mem_append.mp hc with hc | hc
            · exact Or.inl hc
            · exact Or.inr ⟨w, List.mem_cons_self _ _,
                (List.mem_singleton.mp hc).symm, hsel.1, hsel.2⟩
          · exact Or.inr ⟨w2, List.mem_cons_of_mem _ hw2, he, hi⟩
        · rintro (hc | ⟨w2, hw2, he, hi⟩)
          · exact Or.inl (List.mem_append.mpr (Or.inl hc))
          · rcases List.mem_cons.mp hw2 with rfl | hw2
            · exact Or.inl (List.mem_append.mpr (Or.inr (List.mem_singleton.mpr he.symm)))
            · exact Or.inr ⟨w2, hw2, he, hi⟩
    · have hnsel : ¬(w.srcNode ∈ ids ∧ w.tgtNode ∈ ids) := by
        intro hmem
        exact h1 (by
          simp only [List.contains, Bool.and_eq_true, List.elem_eq_mem, decide_eq_true_eq]
          exact hmem)
      rw [if_neg h1, ih]
      constructor
      · rintro (hc | ⟨w2, hw2, he, hi⟩)
        · exact Or.inl hc
        · exact Or.inr ⟨w2, List.mem_cons_of_mem _ hw2, he, hi⟩
      · rintro (hc | ⟨w2, hw2, he, hi⟩)
        · exact Or.inl hc
        · rcases List.mem_cons.mp hw2 with rfl | hw2
          · exact absurd ⟨hi.1, hi.2⟩ hnsel
          · exact Or.inr ⟨w2, hw2, he, hi⟩

/-- The collection loop never records the same connection twice. -/
theorem gatherConns_nodup (ids : List Nat) (ws : List LWire) :
    ∀ acc : List ConnRec, acc.Nodup → (gatherConns ids ws acc).Nodup := by
  induction ws with
  | nil =>
    intro acc h
    exact h
  | cons w ws ih =>
    intro acc h
    rw [gatherConns_cons]
    by_cases h1 : (ids.contains w.srcNode && ids.contains w.tgtNode) = true
    · rw [if_pos h1]
      by_cases h2 : (acc.contains (wireToConn w)) = true
      · rw [if_pos h2]
        exact ih acc h
      · have hacc : wireToConn w ∉ acc := by
          intro hmem
          exact h2 (by simpa only [List.contains, List.elem_eq_mem, decide_eq_true_eq])
        rw [if_neg h2]
        refine ih _ ?_
        rw [← List.concat_eq_append]
        exact List.Nodup.concat hacc h
    · rw [if_neg h1]
      exact ih acc h

/-- The clipboard connection list has no duplicate records. -/
theorem copy_conns_nodup (s : Scene) (sel : List Nat) :
    ((copy_selected_nodes s sel).conns).Nodup :=
  gatherConns_nodup _ _ [] List.nodup_nil

/-- A record is in the clipboard connection list iff some scene wire realizes
it with both endpoint nodes selected. -/
theorem copy_conns_mem (s : Scene) (sel : List Nat) (c : ConnRec) :
    c ∈ (copy_selected_nodes s sel).conns ↔
      ∃ w ∈ s.wires, wireToConn w = c ∧
        w.srcNode ∈ (selectedNodesOf s sel).map (·.nid) ∧
        w.tgtNode ∈ (selectedNodesOf s sel).map (·.nid) := by
  show c ∈ gatherConns _ (gatherWireObjs s.wires (selectedNodesOf s sel)) [] ↔ _
  rw [gatherConns_mem]
  simp only [List.not_mem_nil, false_or]
  constructor
  · rintro ⟨w, hw, he, hs, ht⟩
    exact ⟨w, ((gatherWireObjs_mem _ _ _).mp hw).1, he, hs, ht⟩
  · rintro ⟨w, hw, he, hs, ht⟩
    refine ⟨w, (gatherWireObjs_mem _ _ _).mpr ⟨hw, ?_⟩, he, hs, ht⟩
    rcases List.mem_map.mp hs with ⟨n, hn, hnid⟩
    exact ⟨n, hn, Or.inl hnid.symm⟩

/-- C10: the extraction step records each internal connection exactly once:
the captured list has no duplicates, and a connection record is captured iff
some scene wire realizes it with both endpoint nodes selected — even though
internal wires are gathered twice (once from the source node's output socket
and once from the target node's input socket). -/
theorem copy_dedup_exact (s : Scene) (sel : List Nat) :
    ((copy_selected_nodes s sel).conns).Nodup ∧
    (∀ c : ConnRec, c ∈ (copy_selected_nodes s sel).conns ↔
      ∃ w ∈ s.wires, wireToConn w = c ∧
        w.srcNode ∈ (selectedNodesOf s sel).map (·.nid) ∧
        w.tgtNode ∈ (selectedNodesOf s sel).map (·.nid)) ∧
    (∀ c : ConnRec, c ∈ (copy_selected_nodes s sel).conns →
      ((copy_selected_nodes s sel).conns).count c = 1) :=
  ⟨copy_conns_nodup s sel, copy_conns_mem s sel,
    fun _ hc => List.count_eq_one_of_mem (copy_conns_nodup s sel) hc⟩

/-- C10, witness at a concrete selection of two connected gates. -/
theorem copy_dedup_exact_witness :
    ((copy_selected_nodes gatePairScene [0, 1]).conns).Nodup ∧
    (copy_selected_nodes gatePairScene [0, 1]).conns.count
      { startNode := 0, startSocket := 0, endNode := 1, endSocket := 0 } = 1 := by
  have h := copy_dedup_exact gatePairScene [0, 1]
  exact ⟨h.1, h.2.2 _ (by decide)⟩

/-- A node-id search fails exactly when no node carries the id. -/
theorem findPos_eq_none_iff (ns : List LNode) (i : Nat) :
    findPos ns i = none ↔ ∀ n ∈ ns, n.nid ≠ i := by
  induction ns with
  | nil => simp [findPos]
  | cons n ns ih =>
    by_cases h : n.nid = i
    · simp [findPos, h]
    · simp [findPos, h, ih]

/-- A successful node-id search returns a node of the list carrying the id, at
a position below the list length. -/
theorem findPos_some_facts (ns : List LNode) (i : Nat) :
    ∀ q : Nat × LNode, findPos ns i = some q →
      q.2 ∈ ns ∧ q.2.nid = i ∧ q.1 < ns.length := by
  induction ns with
  | nil =>
    intro q h
    simp [findPos] at h
  | cons n ns ih =>
    intro q h
    by_cases hn : n.nid = i
    · rw [findPos, if_pos hn] at h
      cases h
      exact ⟨List.mem_cons_self _ _, hn, Nat.succ_pos _⟩
    · rw [findPos, if_neg hn] at h
      cases hq : findPos ns i with
      | none => rw [hq] at h; cases h
      | some q2 =>
        rw [hq] at h
        cases h
        obtain ⟨hmem, hnid, hlt⟩ := ih q2 hq
        exact ⟨List.mem_cons_of_mem _ hmem, hnid, by simpa using Nat.succ_lt_succ hlt⟩

/-- A node-id search succeeds when some node carries the id. -/
theorem findPos_isSome_of (ns : List LNode) (i : Nat)
    (h : ∃ n ∈ ns, n.nid = i) : ∃ q, findPos ns i = some q := by
  cases hq : findPos ns i with
  | some q => exact ⟨q, rfl⟩
  | none =>
    obtain ⟨n, hn, hni⟩ := h
    exact absurd hni ((findPos_eq_none_iff ns i).mp hq n hn)

/-- With distinct node ids, two member nodes with the same id coincide. -/
theorem nid_unique (ns : List LNode) (hnd : (ns.map (·.nid)).Nodup)
    {n1 n2 : LNode} (h1 : n1 ∈ ns) (h2 : n2 ∈ ns) (he : n1.nid = n2.nid) :
    n1 = n2 :=
  List.inj_on_of_nodup_map hnd h1 h2 he

/-- The node list the deserializer builds from a serialized scene: the same
nodes in order, renamed to consecutive fresh identities, with class-default
extra state except the restored stored boolean. -/
theorem buildNodes_fst (ns : List LNode) :
    ∀ k, (buildNodes (ns.map nodeToRec) k).1 = renameFrom k ns := by
  induction ns with
  | nil => intro k; rfl
  | cons n ns ih =>
    intro k
    show (buildNodes (nodeToRec n :: ns.map nodeToRec) k).1 = _
    rw [buildNodes]
    rw [show parseClassName (nodeToRec n).rtype = some n.ty from parseClassName_className n.ty]
    show mkNodeFromRec k n.ty (nodeToRec n) :: (buildNodes (ns.map nodeToRec) (k + 1)).1 = _
    rw [ih (k + 1)]
    show _ = rename k n :: renameFrom (k + 1) ns
    congr 1
    by_cases hty : n.ty = NodeType.input <;>
      simp [mkNodeFromRec, nodeToRec, rename, hty]

/-- The id dictionary the deserializer builds from a serialized scene, when
node ids are distinct: looking up an original id finds the renamed node at the
original node's position. -/
theorem buildNodes_lookup (ns : List LNode) (hnd : (ns.map (·.nid)).Nodup) :
    ∀ k i, (buildNodes (ns.map nodeToRec) k).2.lookup i =
      (findPos ns i).map (fun q => rename (k + q.1) q.2) := by
  induction ns with
  | nil => intro k i; rfl
  | cons n ns ih =>
    have hnd2 : (ns.map (·.nid)).Nodup := (List.nodup_cons.mp hnd).2
    have hout : n.nid ∉ ns.map (·.nid) := (List.nodup_cons.mp hnd).1
    intro k i
    show (buildNodes (nodeToRec n :: ns.map nodeToRec) k).2.lookup i = _
    rw [buildNodes]
    rw [show parseClassName (nodeToRec n).rtype = some n.ty from parseClassName_className n.ty]
    show (bindOld (buildNodes (ns.map nodeToRec) (k + 1)).2 (nodeToRec n).rid
      (mkNodeFromRec k n.ty (nodeToRec n))).lookup i = _
    have hridn : (nodeToRec n).rid = n.nid := rfl
    have hmk : mkNodeFromRec k n.ty (nodeToRec n) = rename k n := by
      by_cases hty : n.ty = NodeType.input <;>
        simp [mkNodeFromRec, nodeToRec, rename, hty]
    have htailnone : (buildNodes (ns.map nodeToRec) (k + 1)).2.lookup n.nid = none := by
      rw [ih hnd2 (k + 1) n.nid]
      rw [(findPos_eq_none_iff ns n.nid).mpr ?_]
      · rfl
      · intro n2 hn2 hne
        exact hout (hne ▸ List.mem_map_of_mem (·.nid) hn2)
    rw [bindOld, hridn, htailnone, hmk]
    show List.lookup i ((n.nid, rename k n) :: (buildNodes (ns.map nodeToRec) (k + 1)).2) = _
    rw [List.lookup]
    by_cases hni : i = n.nid
    · rw [show (i == n.nid) = true by simp [hni]]
      rw [findPos, if_pos hni.symm]
      show some (rename k n) = some (rename (k + 0) n)
      rw [Nat.add_zero]
    · rw [show (i == n.nid) = false by simp [hni]]
      show List.lookup i (buildNodes (ns.map nodeToRec) (k + 1)).2 = _
      rw [ih hnd2 (k + 1) i]
      rw [findPos, if_neg (fun h => hni h.symm)]
      cases hq : findPos ns i with
      | none => rfl
      | some q =>
        show some (rename (k + 1 + q.1) q.2) = some (rename (k + (q.1 + 1)) q.2)
        rw [show k + 1 + q.1 = k + (q.1 + 1) by omega]

/-- Renaming preserves the spec's node key up to the write-to-file flavor,
which it resets, provided non-input nodes carry the default stored boolean. -/
theorem renameFrom_map_nodeKey (ns : List LNode)
    (hval : ∀ n ∈ ns, n.ty ≠ NodeType.input → n.value = false) :
    ∀ k, (renameFrom k ns).map nodeKey =
      ns.map (fun n => nodeKey { n with writeToFile := false }) := by
  induction ns with
  | nil => intro k; rfl
  | cons n ns ih =>
    intro k
    show nodeKey (rename k n) :: (renameFrom (k + 1) ns).map nodeKey = _
    rw [ih (fun n2 h2 => hval n2 (List.mem_cons_of_mem _ h2)) (k + 1)]
    congr 1
    by_cases hty : n.ty = NodeType.input
    · simp [nodeKey, rename, hty]
    · simp [nodeKey, rename, hty, hval n (List.mem_cons_self _ _) hty]

/-- The renamed node list at base `k` has node `k + p` at position `p`. -/
theorem findPos_renameFrom (ns : List LNode) :
    ∀ k p, (hp : p < ns.length) →
      findPos (renameFrom k ns) (k + p) = some (p, rename (k + p) (ns.get ⟨p, hp⟩)) := by
  induction ns with
  | nil =>
    intro k p hp
    exact absurd hp (Nat.not_lt_zero p)
  | cons n ns ih =>
    intro k p hp
    cases p with
    | zero =>
      show findPos (rename k n :: renameFrom (k + 1) ns) (k + 0) = _
      rw [findPos, if_pos (by show k = k + 0; omega)]
      rfl
    | succ p =>
      show findPos (rename k n :: renameFrom (k + 1) ns) (k + (p + 1)) = _
      rw [findPos, if_neg (by show ¬k = k + (p + 1); omega)]
      rw [show k + (p + 1) = (k + 1) + p by omega]
      rw [ih (k + 1) p (Nat.lt_of_succ_lt_succ hp)]
      rfl

/-- Searching a pointwise-renamed list for an id finds the same position when
the renaming preserves ids. -/
theorem findPos_map_fst (ns : List LNode) (f : LNode → LNode)
    (hf : ∀ n, (f n).nid = n.nid) (i : Nat) :
    ((findPos (ns.map f) i).map (·.1)) = ((findPos ns i).map (·.1)) := by
  induction ns with
  | nil => rfl
  | cons n ns ih =>
    show ((findPos (f n :: ns.map f) i).map (·.1)) = _
    rw [findPos, findPos, hf n]
    by_cases h : n.nid = i
    · rw [if_pos h, if_pos h]
      rfl
    · rw [if_neg h, if_neg h]
      cases hq : findPos (ns.map f) i with
      | none =>
        have := ih
        rw [hq] at this
        cases hq2 : findPos ns i with
        | none => rfl
        | some q2 => rw [hq2] at this; cases this
      | some q =>
        have := ih
        rw [hq] at this
        cases hq2 : findPos ns i with
        | none => rw [hq2] at this; cases this
        | some q2 =>
          rw [hq2] at this
          have heq : q.1 = q2.1 := by simpa using this
          simp [heq]

/-- The serializer's connection records are the grouped wires turned into
records. -/
theorem serializeConnsAux_eq (ws : List LWire) (ns : List LNode) :
    serializeConnsAux ws ns = (groupedOver ws ns).map wireToConn := by
  induction ns with
  | nil => rfl
  | cons n ns ih =>
    show _ ++ serializeConnsAux ws ns = _
    rw [ih]
    show _ = (ws.filter (fun w => w.srcNode == n.nid) ++ groupedOver ws ns).map wireToConn
    rw [List.map_append]

/-- Grouping ignores wires whose source node is filtered away, provided no
node of the list carries the filtered id. -/
theorem groupedOver_filter_ne (ws : List LWire) (i : Nat) :
    ∀ ns : List LNode, (∀ n ∈ ns, n.nid ≠ i) →
      groupedOver (ws.filter (fun w => !(w.srcNode == i))) ns = groupedOver ws ns := by
  intro ns
  induction ns with
  | nil => intro h; rfl
  | cons n ns ih =>
    intro h
    show _ ++ _ = _ ++ _
    rw [ih (fun n2 h2 => h n2 (List.mem_cons_of_mem _ h2))]
    congr 1
    rw [List.filter_filter]
    apply List.filter_congr
    intro w _
    have hni : n.nid ≠ i := h n (List.mem_cons_self _ _)
    by_cases hw : w.srcNode = n.nid
    · simp [hw, hni]
    · simp [hw]

/-- Grouping the wires by source node is a permutation of the wire list when
node ids are distinct and every wire's source node is present. -/
theorem groupedOver_perm :
    ∀ (ns : List LNode) (ws : List LWire), (ns.map (·.nid)).Nodup →
      (∀ w ∈ ws, ∃ n ∈ ns, w.srcNode = n.nid) →
      (groupedOver ws ns).Perm ws := by
  intro ns
  induction ns with
  | nil =>
    intro ws _ hcov
    cases ws with
    | nil => exact List.Perm.refl _
    | cons w ws =>
      obtain ⟨n, hn, _⟩ := hcov w (List.mem_cons_self _ _)
      exact absurd hn (List.not_mem_nil n)
  | cons n ns ih =>
    intro ws hnd hcov
    have hnd2 : (ns.map (·.nid)).Nodup := (List.nodup_cons.mp hnd).2
    have hout : n.nid ∉ ns.map (·.nid) := (List.nodup_cons.mp hnd).1
    show (ws.filter (fun w => w.srcNode == n.nid) ++ groupedOver ws ns).Perm ws
    have hne : ∀ n2 ∈ ns, n2.nid ≠ n.nid := by
      intro n2 h2 he
      exact hout (he ▸ List.mem_map_of_mem (·.nid) h2)
    rw [← groupedOver_filter_ne ws n.nid ns hne]
    have hcov2 : ∀ w ∈ ws.filter (fun w => !(w.srcNode == n.nid)), ∃ n2 ∈ ns, w.srcNode = n2.nid := by
      intro w hw
      obtain ⟨hwin, hwp⟩ := List.mem_filter.mp hw
      obtain ⟨n2, hn2, hsrc⟩ := hcov w hwin
      rcases List.mem_cons.mp hn2 with rfl | hn2
      · exfalso
        rw [hsrc] at hwp
        simp at hwp
      · exact ⟨n2, hn2, hsrc⟩
    have hperm := ih (ws.filter (fun w => !(w.srcNode == n.nid))) hnd2 hcov2
    exact List.Perm.trans (List.Perm.append_left _ hperm) (List.filter_append_perm _ ws)

/-- The wires the deserializer rebuilds from records of scene wires: each
endpoint id is replaced by the endpoint node's position in the scene's node
list (the fresh identities start at 0). -/
theorem buildWires_of_serialized (s : Scene) (hWF : WF s) :
    ∀ ws : List LWire, (∀ w ∈ ws, w ∈ s.wires) →
      buildWires (buildNodes (s.nodes.map nodeToRec) 0).2 (ws.map wireToConn) =
        ws.map (fun w =>
          { srcNode := posIndex s w.srcNode, srcSock := w.srcSock,
            tgtNode := posIndex s w.tgtNode, tgtSock := w.tgtSock }) := by
  obtain ⟨hnd, hsrc, htgt, _, _⟩ := hWF
  intro ws
  induction ws with
  | nil => intro _; rfl
  | cons w ws ih =>
    intro hws
    have hw : w ∈ s.wires := hws w (List.mem_cons_self _ _)
    obtain ⟨nsn, hnsn, hnsid, hnsb⟩ := hsrc w hw
    obtain ⟨ntn, hntn, hntid, hntb⟩ := htgt w hw
    obtain ⟨qs, hqs⟩ := findPos_isSome_of s.nodes w.srcNode ⟨nsn, hnsn, hnsid⟩
    obtain ⟨qt, hqt⟩ := findPos_isSome_of s.nodes w.tgtNode ⟨ntn, hntn, hntid⟩
    obtain ⟨hqsmem, hqsid, _⟩ := findPos_some_facts s.nodes w.srcNode qs hqs
    obtain ⟨hqtmem, hqtid, _⟩ := findPos_some_facts s.nodes w.tgtNode qt hqt
    have hqseq : qs.2 = nsn := nid_unique s.nodes hnd hqsmem hnsn (by rw [hqsid, hnsid])
    have hqteq : qt.2 = ntn := nid_unique s.nodes hnd hqtmem hntn (by rw [hqtid, hntid])
    have hlooks : (buildNodes (s.nodes.map nodeToRec) 0).2.lookup (wireToConn w).startNode =
        some (rename (0 + qs.1) qs.2) := by
      rw [show (wireToConn w).startNode = w.srcNode from rfl,
        buildNodes_lookup s.nodes hnd 0 w.srcNode, hqs]
      rfl
    have hlookt : (buildNodes (s.nodes.map nodeToRec) 0).2.lookup (wireToConn w).endNode =
        some (rename (0 + qt.1) qt.2) := by
      rw [show (wireToConn w).endNode = w.tgtNode from rfl,
        buildNodes_lookup s.nodes hnd 0 w.tgtNode, hqt]
      rfl
    have hbs : (wireToConn w).startSocket < numOutputs (rename (0 + qs.1) qs.2).ty := by
      show w.srcSock < numOutputs qs.2.ty
      rw [hqseq]
      exact hnsb
    have hbt : (wireToConn w).endSocket < numInputs (rename (0 + qt.1) qt.2).ty := by
      show w.tgtSock < numInputs qt.2.ty
      rw [hqteq]
      exact hntb
    show buildWires _ (wireToConn w :: ws.map wireToConn) = _
    rw [buildWires, hlooks, hlookt]
    show (if (wireToConn w).startSocket < numOutputs (rename (0 + qs.1) qs.2).ty ∧
        (wireToConn w).endSocket < numInputs (rename (0 + qt.1) qt.2).ty then
        ({ srcNode := (rename (0 + qs.1) qs.2).nid, srcSock := (wireToConn w).startSocket,
           tgtNode := (rename (0 + qt.1) qt.2).nid, tgtSock := (wireToConn w).endSocket } : LWire) ::
          buildWires (buildNodes (s.nodes.map nodeToRec) 0).2 (ws.map wireToConn)
      else buildWires (buildNodes (s.nodes.map nodeToRec) 0).2 (ws.map wireToConn)) = _
    rw [if_pos ⟨hbs, hbt⟩]
    rw [ih (fun w2 h2 => hws w2 (List.mem_cons_of_mem _ h2))]
    congr 1
    show ({ srcNode := 0 + qs.1, srcSock := w.srcSock,
            tgtNode := 0 + qt.1, tgtSock := w.tgtSock } : LWire) = _
    rw [show (0 : Nat) + qs.1 = qs.1 by omega, show (0 : Nat) + qt.1 = qt.1 by omega]
    show _ = ({ srcNode := posIndex s w.srcNode, srcSock := w.srcSock,
                tgtNode := posIndex s w.tgtNode, tgtSock := w.tgtSock } : LWire)
    rw [posIndex, posIndex, hqs, hqt]
    rfl

/-- Wires picked up by the grouping are wires of the list. -/
theorem groupedOver_subset (ws : List LWire) :
    ∀ (ns : List LNode) (w : LWire), w ∈ groupedOver ws ns → w ∈ ws := by
  intro ns
  induction ns with
  | nil =>
    intro w hw
    exact absurd hw (List.not_mem_nil w)
  | cons n ns ih =>
    intro w hw
    rcases List.mem_append.mp hw with hw | hw
    · exact (List.mem_filter.mp hw).1
    · exact ih w hw

/-- In the deserialized copy of a scene, the node created at position `p`
carries identity `p`, so position lookup is the identity below the length. -/
theorem posIndex_renameFrom (ns : List LNode) (ws : List LWire) (p : Nat)
    (hp : p < ns.length) :
    posIndex { nodes := renameFrom 0 ns, wires := ws } p = p := by
  have hfp := findPos_renameFrom ns 0 p hp
  rw [Nat.zero_add] at hfp
  rw [posIndex]
  show ((findPos (renameFrom 0 ns) p).map (·.1)).getD 0 = p
  rw [hfp]
  rfl

/-- Resetting the write-to-file flavor does not move nodes, so position lookup
is unchanged. -/
theorem posIndex_resetFlavor (s : Scene) (i : Nat) :
    posIndex (resetFlavor s) i = posIndex s i := by
  rw [posIndex, posIndex]
  show ((findPos (s.nodes.map fun n => { n with writeToFile := false }) i).map (·.1)).getD 0 = _
  rw [findPos_map_fst s.nodes (fun n => { n with writeToFile := false }) (fun n => rfl) i]

/-- C3 counterexample: the write-to-file flavor of an output node is not
stored by the serializer (only the class name is), and the deserializer always
reconstructs the plain flavor, so the round trip of a well-formed scene
holding a Write Output node is not isomorphic to the original. -/
theorem roundtrip_flavor_cex :
    WF flavorScene ∧
    ¬ sceneIso (deserialize_scene (serialize_scene flavorScene)) flavorScene := by
  decide

/-- C3 amended: for every well-formed scene, deserializing the serialized
document yields a graph isomorphic — identical node (type, position, extra)
multiset and identical connection multiset under the positional id remapping —
to the original with every write-to-file flavor reset to the class default;
the stored boolean of input nodes and all connections are preserved exactly. -/
theorem roundtrip_amended (s : Scene) (h : WF s) :
    sceneIso (deserialize_scene (serialize_scene s)) (resetFlavor s) := by
  have hnd : (s.nodes.map (·.nid)).Nodup := h.1
  have hsrcb := h.2.1
  have htgtb := h.2.2.1
  have hval := h.2.2.2.1
  constructor
  · have hlist : (deserialize_scene (serialize_scene s)).nodes.map nodeKey =
        (resetFlavor s).nodes.map nodeKey := by
      show ((buildNodes (s.nodes.map nodeToRec) 0).1).map nodeKey = _
      rw [buildNodes_fst s.nodes 0]
      rw [renameFrom_map_nodeKey s.nodes hval 0]
      show _ = (s.nodes.map (fun n => { n with writeToFile := false })).map nodeKey
      rw [List.map_map]
      rfl
    exact congrArg _ hlist
  · have hw1 : (deserialize_scene (serialize_scene s)).wires =
        (groupedOver s.wires s.nodes).map (fun w =>
          { srcNode := posIndex s w.srcNode, srcSock := w.srcSock,
            tgtNode := posIndex s w.tgtNode, tgtSock := w.tgtSock }) := by
      show buildWires (buildNodes (s.nodes.map nodeToRec) 0).2
        (serializeConnsAux s.wires s.nodes) = _
      rw [serializeConnsAux_eq]
      exact buildWires_of_serialized s h (groupedOver s.wires s.nodes)
        (fun w hw => groupedOver_subset s.wires s.nodes w hw)
    have hposbound : ∀ w ∈ s.wires, posIndex s w.srcNode < s.nodes.length ∧
        posIndex s w.tgtNode < s.nodes.length := by
      intro w hw
      obtain ⟨nsn, hnsn, hnsid, _⟩ := hsrcb w hw
      obtain ⟨ntn, hntn, hntid, _⟩ := htgtb w hw
      obtain ⟨qs, hqs⟩ := findPos_isSome_of s.nodes w.srcNode ⟨nsn, hnsn, hnsid⟩
      obtain ⟨qt, hqt⟩ := findPos_isSome_of s.nodes w.tgtNode ⟨ntn, hntn, hntid⟩
      constructor
      · rw [posIndex, hqs]
        exact (findPos_some_facts s.nodes w.srcNode qs hqs).2.2
      · rw [posIndex, hqt]
        exact (findPos_some_facts s.nodes w.tgtNode qt hqt).2.2
    have hmapL : (deserialize_scene (serialize_scene s)).wires.map
        (normWire (deserialize_scene (serialize_scene s))) =
        (groupedOver s.wires s.nodes).map (fun w =>
          (posIndex s w.srcNode, w.srcSock, posIndex s w.tgtNode, w.tgtSock)) := by
      rw [hw1, List.map_map]
      apply List.map_congr_left
      intro w hw
      have hwin : w ∈ s.wires := groupedOver_subset s.wires s.nodes w hw
      obtain ⟨hbs, hbt⟩ := hposbound w hwin
      show normWire (deserialize_scene (serialize_scene s))
        { srcNode := posIndex s w.srcNode, srcSock := w.srcSock,
          tgtNode := posIndex s w.tgtNode, tgtSock := w.tgtSock } = _
      rw [normWire]
      have hn1 : (deserialize_scene (serialize_scene s)) =
          { nodes := renameFrom 0 s.nodes,
            wires := (deserialize_scene (serialize_scene s)).wires } := by
        show ({ nodes := (buildNodes (s.nodes.map nodeToRec) 0).1,
                wires := (deserialize_scene (serialize_scene s)).wires } : Scene) = _
        rw [buildNodes_fst s.nodes 0]
      rw [hn1]
      show (posIndex { nodes := renameFrom 0 s.nodes, wires := _ } (posIndex s w.srcNode),
        w.srcSock,
        posIndex { nodes := renameFrom 0 s.nodes, wires := _ } (posIndex s w.tgtNode),
        w.tgtSock) = _
      rw [posIndex_renameFrom s.nodes _ _ hbs, posIndex_renameFrom s.nodes _ _ hbt]
    have hmapR : (resetFlavor s).wires.map (normWire (resetFlavor s)) =
        s.wires.map (fun w =>
          (posIndex s w.srcNode, w.srcSock, posIndex s w.tgtNode, w.tgtSock)) := by
      show s.wires.map (normWire (resetFlavor s)) = _
      apply List.map_congr_left
      intro w _
      rw [normWire, posIndex_resetFlavor, posIndex_resetFlavor]
    rw [hmapL, hmapR]
    apply Multiset.coe_eq_coe.mpr
    apply List.Perm.map
    apply groupedOver_perm s.nodes s.wires hnd
    intro w hw
    obtain ⟨n, hn, hnid, _⟩ := hsrcb w hw
    exact ⟨n, hn, hnid.symm⟩

/-- C3 amended, witness at the concrete wired Input/Output scene. -/
theorem roundtrip_amended_witness :
    sceneIso (deserialize_scene (serialize_scene pairScene)) (resetFlavor pairScene) :=
  roundtrip_amended pairScene (by decide)

/-- The node list the paste loop builds from a clipboard of nodes: the same
nodes in order, at consecutive fresh identities, shifted by the offset, with
class-default extra state. -/
theorem buildPasted_fst (off : Int) (ns : List LNode) :
    ∀ k, (buildPasted off (ns.map nodeToClip) k).1 = pasteRenameFrom off k ns := by
  induction ns with
  | nil => intro k; rfl
  | cons n ns ih =>
    intro k
    show (buildPasted off (nodeToClip n :: ns.map nodeToClip) k).1 = _
    rw [buildPasted]
    rw [show parseClassName (nodeToClip n).ctype = some n.ty from parseClassName_className n.ty]
    show ({ nid := k, ty := n.ty, x := (nodeToClip n).x + off, y := (nodeToClip n).y + off,
            value := false, writeToFile := false } : LNode) ::
        (buildPasted off (ns.map nodeToClip) (k + 1)).1 = _
    rw [ih (k + 1)]
    rfl

/-- The id dictionary the paste loop builds, when the clipboard node ids are
distinct: looking up an original id finds the pasted node at the original
node's clipboard position. -/
theorem buildPasted_lookup (off : Int) (ns : List LNode)
    (hnd : (ns.map (·.nid)).Nodup) :
    ∀ k i, (buildPasted off (ns.map nodeToClip) k).2.lookup i =
      (findPos ns i).map (fun q => pasteRename off (k + q.1) q.2) := by
  induction ns with
  | nil => intro k i; rfl
  | cons n ns ih =>
    have hnd2 : (ns.map (·.nid)).Nodup := (List.nodup_cons.mp hnd).2
    have hout : n.nid ∉ ns.map (·.nid) := (List.nodup_cons.mp hnd).1
    intro k i
    show (buildPasted off (nodeToClip n :: ns.map nodeToClip) k).2.lookup i = _
    rw [buildPasted]
    rw [show parseClassName (nodeToClip n).ctype = some n.ty from parseClassName_className n.ty]
    show (bindOld (buildPasted off (ns.map nodeToClip) (k + 1)).2 (nodeToClip n).origId
      ({ nid := k, ty := n.ty, x := (nodeToClip n).x + off, y := (nodeToClip n).y + off,
         value := false, writeToFile := false } : LNode)).lookup i = _
    have horig : (nodeToClip n).origId = n.nid := rfl
    have hmk : ({ nid := k, ty := n.ty, x := (nodeToClip n).x + off,
                  y := (nodeToClip n).y + off, value := false,
                  writeToFile := false } : LNode) =
        pasteRename off k n := rfl
    have htailnone : (buildPasted off (ns.map nodeToClip) (k + 1)).2.lookup n.nid = none := by
      rw [ih hnd2 (k + 1) n.nid]
      rw [(findPos_eq_none_iff ns n.nid).mpr ?_]
      · rfl
      · intro n2 hn2 hne
        exact hout (hne ▸ List.mem_map_of_mem (·.nid) hn2)
    rw [bindOld, horig, htailnone, hmk]
    show List.lookup i ((n.nid, pasteRename off k n) ::
      (buildPasted off (ns.map nodeToClip) (k + 1)).2) = _
    rw [List.lookup]
    by_cases hni : i = n.nid
    · rw [show (i == n.nid) = true by simp [hni]]
      rw [findPos, if_pos hni.symm]
      show some (pasteRename off k n) = some (pasteRename off (k + 0) n)
      rw [Nat.add_zero]
    · rw [show (i == n.nid) = false by simp [hni]]
      show List.lookup i (buildPasted off (ns.map nodeToClip) (k + 1)).2 = _
      rw [ih hnd2 (k + 1) i]
      rw [findPos, if_neg (fun h2 => hni h2.symm)]
      cases hq : findPos ns i with
      | none => rfl
      | some q =>
        show some (pasteRename off (k + 1 + q.1) q.2) = some (pasteRename off (k + (q.1 + 1)) q.2)
        rw [show k + 1 + q.1 = k + (q.1 + 1) by omega]

/-- Pasting creates one node per clipboard entry. -/
theorem pasteRenameFrom_length (off : Int) :
    ∀ (ns : List LNode) (k : Nat), (pasteRenameFrom off k ns).length = ns.length := by
  intro ns
  induction ns with
  | nil => intro k; rfl
  | cons n ns ih =>
    intro k
    show (pasteRenameFrom off k (n :: ns)).length = ns.length + 1
    rw [pasteRenameFrom]
    show (pasteRenameFrom off (k + 1) ns).length + 1 = ns.length + 1
    rw [ih (k + 1)]

/-- The identities of the pasted nodes are exactly the `length` consecutive
values starting at the fresh base. -/
theorem pasteRenameFrom_nid_mem (off : Int) :
    ∀ (ns : List LNode) (k i : Nat),
      i ∈ (pasteRenameFrom off k ns).map (·.nid) ↔ ∃ p, p < ns.length ∧ i = k + p := by
  intro ns
  induction ns with
  | nil =>
    intro k i
    constructor
    · intro hmem
      exact absurd hmem (List.not_mem_nil i)
    · rintro ⟨p, hp, _⟩
      exact absurd hp (Nat.not_lt_zero p)
  | cons n ns ih =>
    intro k i
    show i ∈ (pasteRename off k n :: pasteRenameFrom off (k + 1) ns).map (·.nid) ↔ _
    rw [List.map_cons, List.mem_cons, ih (k + 1) i]
    constructor
    · rintro (hi | ⟨p, hp, hip⟩)
      · exact ⟨0, Nat.succ_pos _, by simpa using hi⟩
      · exact ⟨p + 1, by simpa using Nat.succ_lt_succ hp, by omega⟩
    · rintro ⟨p, hp, hip⟩
      cases p with
      | zero =>
        left
        simpa using hip
      | succ p =>
        right
        exact ⟨p, Nat.lt_of_succ_lt_succ hp, by omega⟩

/-- Every member of a list is bounded by its right max fold. -/
theorem le_foldr_max (l : List Nat) : ∀ a ∈ l, a ≤ l.foldr max 0 := by
  induction l with
  | nil =>
    intro a ha
    exact absurd ha (List.not_mem_nil a)
  | cons b l ih =>
    intro a ha
    rcases List.mem_cons.mp ha with rfl | ha
    · exact Nat.le_max_left a (l.foldr max 0)
    · exact Nat.le_trans (ih a ha) (Nat.le_max_right b (l.foldr max 0))

/-- Every live node id is strictly below the fresh id base. -/
theorem nid_lt_freshBase (s : Scene) (n : LNode) (h : n ∈ s.nodes) :
    n.nid < freshBase s := by
  have := le_foldr_max (s.nodes.map (·.nid)) n.nid (List.mem_map_of_mem (·.nid) h)
  rw [freshBase]
  omega

/-- The selected nodes inherit distinct ids from the scene. -/
theorem selectedNodesOf_nid_nodup (s : Scene) (sel : List Nat)
    (hnd : (s.nodes.map (·.nid)).Nodup) :
    ((selectedNodesOf s sel).map (·.nid)).Nodup :=
  List.Nodup.sublist (List.Sublist.map _ (List.filter_sublist s.nodes)) hnd

/-- Selected nodes are scene nodes. -/
theorem selectedNodesOf_subset (s : Scene) (sel : List Nat) (n : LNode)
    (h : n ∈ selectedNodesOf s sel) : n ∈ s.nodes :=
  (List.mem_filter.mp h).1

/-- The wires the paste loop rebuilds from internal connection records of a
well-formed scene: every record passes the dictionary and bounds checks, and
each endpoint id becomes the pasted copy's id. -/
theorem buildWires_of_copied (s : Scene) (hWF : WF s) (sel : List Nat)
    (off : Int) (base : Nat) :
    ∀ cs : List ConnRec,
      (∀ c ∈ cs, ∃ w ∈ s.wires, wireToConn w = c ∧
        w.srcNode ∈ (selectedNodesOf s sel).map (·.nid) ∧
        w.tgtNode ∈ (selectedNodesOf s sel).map (·.nid)) →
      buildWires (buildPasted off ((selectedNodesOf s sel).map nodeToClip) base).2 cs =
        cs.map (connRemap base (selectedNodesOf s sel)) := by
  have hnd : (s.nodes.map (·.nid)).Nodup := hWF.1
  have hsrcb := hWF.2.1
  have htgtb := hWF.2.2.1
  have hndSel := selectedNodesOf_nid_nodup s sel hnd
  intro cs
  induction cs with
  | nil => intro _; rfl
  | cons c cs ih =>
    intro hcs
    obtain ⟨w, hw, he, hsm, htm⟩ := hcs c (List.mem_cons_self _ _)
    have hcsrc : c.startNode = w.srcNode := by rw [← he]; rfl
    have hcssock : c.startSocket = w.srcSock := by rw [← he]; rfl
    have hctgt : c.endNode = w.tgtNode := by rw [← he]; rfl
    have hctsock : c.endSocket = w.tgtSock := by rw [← he]; rfl
    obtain ⟨ns1, hns1, hnid1⟩ := List.mem_map.mp hsm
    obtain ⟨nt1, hnt1, htid1⟩ := List.mem_map.mp htm
    obtain ⟨qs, hqs⟩ := findPos_isSome_of (selectedNodesOf s sel) c.startNode
      ⟨ns1, hns1, by rw [hnid1, hcsrc]⟩
    obtain ⟨qt, hqt⟩ := findPos_isSome_of (selectedNodesOf s sel) c.endNode
      ⟨nt1, hnt1, by rw [htid1, hctgt]⟩
    obtain ⟨hqsmem, hqsid, _⟩ := findPos_some_facts _ _ qs hqs
    obtain ⟨hqtmem, hqtid, _⟩ := findPos_some_facts _ _ qt hqt
    obtain ⟨nsn, hnsn, hnsid, hnsb⟩ := hsrcb w hw
    obtain ⟨ntn, hntn, hntid, hntb⟩ := htgtb w hw
    have hqseq : qs.2 = nsn :=
      nid_unique s.nodes hnd (selectedNodesOf_subset s sel qs.2 hqsmem) hnsn
        (by rw [hqsid, hcsrc, hnsid])
    have hqteq : qt.2 = ntn :=
      nid_unique s.nodes hnd (selectedNodesOf_subset s sel qt.2 hqtmem) hntn
        (by rw [hqtid, hctgt, hntid])
    have hlooks : (buildPasted off ((selectedNodesOf s sel).map nodeToClip) base).2.lookup
        c.startNode = some (pasteRename off (base + qs.1) qs.2) := by
      rw [buildPasted_lookup off (selectedNodesOf s sel) hndSel base c.startNode, hqs]
      rfl
    have hlookt : (buildPasted off ((selectedNodesOf s sel).map nodeToClip) base).2.lookup
        c.endNode = some (pasteRename off (base + qt.1) qt.2) := by
      rw [buildPasted_lookup off (selectedNodesOf s sel) hndSel base c.endNode, hqt]
      rfl
    have hbs : c.startSocket < numOutputs (pasteRename off (base + qs.1) qs.2).ty := by
      show c.startSocket < numOutputs qs.2.ty
      rw [hcssock, hqseq]
      exact hnsb
    have hbt : c.endSocket < numInputs (pasteRename off (base + qt.1) qt.2).ty := by
      show c.endSocket < numInputs qt.2.ty
      rw [hctsock, hqteq]
      exact hntb
    show buildWires _ (c :: cs) = _
    rw [buildWires, hlooks, hlookt]
    show (if c.startSocket < numOutputs (pasteRename off (base + qs.1) qs.2).ty ∧
        c.endSocket < numInputs (pasteRename off (base + qt.1) qt.2).ty then
        ({ srcNode := (pasteRename off (base + qs.1) qs.2).nid, srcSock := c.startSocket,
           tgtNode := (pasteRename off (base + qt.1) qt.2).nid, tgtSock := c.endSocket } : LWire) ::
          buildWires (buildPasted off ((selectedNodesOf s sel).map nodeToClip) base).2 cs
      else buildWires (buildPasted off ((selectedNodesOf s sel).map nodeToClip) base).2 cs) = _
    rw [if_pos ⟨hbs, hbt⟩]
    rw [ih (fun c2 h2 => hcs c2 (List.mem_cons_of_mem _ h2))]
    congr 1
    show ({ srcNode := base + qs.1, srcSock := c.startSocket,
            tgtNode := base + qt.1, tgtSock := c.endSocket } : LWire) = _
    rw [connRemap, hqs, hqt]
    rfl

/-- C7: pasting a copied selection into a well-formed scene creates exactly
one new node per selected node (the original nodes and wires staying in
place), recreates exactly the captured internal connections — those realized
by a scene wire with both endpoint nodes selected, each captured once — with
both endpoints remapped onto the pasted copies, and creates zero connections
to any pre-existing node: every new wire's endpoints are new node ids, and no
new node id collides with a pre-existing node. -/
theorem extract_instantiate_exact (s : Scene) (sel : List Nat) (off : Int) (h : WF s) :
    ((paste_nodes s (copy_selected_nodes s sel) off).1.nodes =
      s.nodes ++ pasteRenameFrom off (freshBase s) (selectedNodesOf s sel)) ∧
    ((paste_nodes s (copy_selected_nodes s sel) off).1.nodes.length =
      s.nodes.length + (selectedNodesOf s sel).length) ∧
    ((paste_nodes s (copy_selected_nodes s sel) off).1.wires =
      s.wires ++ ((copy_selected_nodes s sel).conns).map
        (connRemap (freshBase s) (selectedNodesOf s sel))) ∧
    ((copy_selected_nodes s sel).conns).Nodup ∧
    (∀ c : ConnRec, c ∈ (copy_selected_nodes s sel).conns ↔
      ∃ w ∈ s.wires, wireToConn w = c ∧
        w.srcNode ∈ (selectedNodesOf s sel).map (·.nid) ∧
        w.tgtNode ∈ (selectedNodesOf s sel).map (·.nid)) ∧
    (∀ w2 ∈ ((copy_selected_nodes s sel).conns).map
        (connRemap (freshBase s) (selectedNodesOf s sel)),
      w2.srcNode ∈ (paste_nodes s (copy_selected_nodes s sel) off).2 ∧
      w2.tgtNode ∈ (paste_nodes s (copy_selected_nodes s sel) off).2) ∧
    (∀ i ∈ (paste_nodes s (copy_selected_nodes s sel) off).2,
      ∀ n ∈ s.nodes, n.nid ≠ i) := by
  have hnodes : (paste_nodes s (copy_selected_nodes s sel) off).1.nodes =
      s.nodes ++ pasteRenameFrom off (freshBase s) (selectedNodesOf s sel) := by
    show s.nodes ++
      (buildPasted off ((selectedNodesOf s sel).map nodeToClip) (freshBase s)).1 = _
    rw [buildPasted_fst]
  have hres2 : (paste_nodes s (copy_selected_nodes s sel) off).2 =
      (pasteRenameFrom off (freshBase s) (selectedNodesOf s sel)).map (·.nid) := by
    show ((buildPasted off ((selectedNodesOf s sel).map nodeToClip) (freshBase s)).1).map
      (·.nid) = _
    rw [buildPasted_fst]
  refine ⟨hnodes, ?_, ?_, copy_conns_nodup s sel, copy_conns_mem s sel, ?_, ?_⟩
  · rw [hnodes, List.length_append, pasteRenameFrom_length]
  · show s.wires ++
      buildWires (buildPasted off ((selectedNodesOf s sel).map nodeToClip) (freshBase s)).2
        ((copy_selected_nodes s sel).conns) = _
    rw [buildWires_of_copied s h sel off (freshBase s) ((copy_selected_nodes s sel).conns)
      (fun c hc => (copy_conns_mem s sel c).mp hc)]
  · intro w2 hw2
    obtain ⟨c, hc, hcw⟩ := List.mem_map.mp hw2
    obtain ⟨w, hw, he, hsm, htm⟩ := (copy_conns_mem s sel c).mp hc
    obtain ⟨ns1, hns1, hnid1⟩ := List.mem_map.mp hsm
    obtain ⟨nt1, hnt1, htid1⟩ := List.mem_map.mp htm
    have hcsrc : c.startNode = w.srcNode := by rw [← he]; rfl
    have hctgt : c.endNode = w.tgtNode := by rw [← he]; rfl
    obtain ⟨qs, hqs⟩ := findPos_isSome_of (selectedNodesOf s sel) c.startNode
      ⟨ns1, hns1, by rw [hnid1, hcsrc]⟩
    obtain ⟨qt, hqt⟩ := findPos_isSome_of (selectedNodesOf s sel) c.endNode
      ⟨nt1, hnt1, by rw [htid1, hctgt]⟩
    have hqsb := (findPos_some_facts _ _ qs hqs).2.2
    have hqtb := (findPos_some_facts _ _ qt hqt).2.2
    have hsrc2 : w2.srcNode = freshBase s + qs.1 := by
      rw [← hcw, connRemap, hqs]
      rfl
    have htgt2 : w2.tgtNode = freshBase s + qt.1 := by
      rw [← hcw, connRemap, hqt]
      rfl
    rw [hres2, hsrc2, htgt2]
    constructor
    · exact (pasteRenameFrom_nid_mem off (selectedNodesOf s sel) (freshBase s) _).mpr
        ⟨qs.1, hqsb, rfl⟩
    · exact (pasteRenameFrom_nid_mem off (selectedNodesOf s sel) (freshBase s) _).mpr
        ⟨qt.1, hqtb, rfl⟩
  · intro i hi n hn
    rw [hres2] at hi
    obtain ⟨p, _, hip⟩ :=
      (pasteRenameFrom_nid_mem off (selectedNodesOf s sel) (freshBase s) i).mp hi
    have := nid_lt_freshBase s n hn
    omega

/-- C7, witness: pasting the two connected gates copied from the concrete
scene with an external wire. -/
theorem extract_instantiate_exact_witness :
    (paste_nodes gatePairScene (copy_selected_nodes gatePairScene [0, 1]) 20).1.nodes =
      gatePairScene.nodes ++
        pasteRenameFrom 20 (freshBase gatePairScene) (selectedNodesOf gatePairScene [0, 1]) ∧
    (paste_nodes gatePairScene (copy_selected_nodes gatePairScene [0, 1]) 20).1.wires =
      gatePairScene.wires ++ ((copy_selected_nodes gatePairScene [0, 1]).conns).map
        (connRemap (freshBase gatePairScene) (selectedNodesOf gatePairScene [0, 1])) := by
  have h := extract_instantiate_exact gatePairScene [0, 1] 20 (by decide)
  exact ⟨h.1, h.2.2.1⟩

end LogicSim
